import Mathlib

/-!
# Verification of `scraper.py` (clinic-data-scraper)

Shallow embedding of the clinic data scraper: the Fetcher (`get_page_content`),
the Region Lister (`extract_clinics_from_region` / `build_clinic_url`), the
Clinic Detail Extractor (`extract_clinic_details`, including its fixed regex
patterns for phone / email / address and the DOM walk for services), the
address override table, and the Orchestrator (`scrape_all_clinics`).

Strings are modelled as `List Char`.  The fixed regular expressions of the
source are embedded by a small continuation-passing backtracking matcher that
reproduces Python `re` semantics (leftmost search, greedy quantifiers with
backtracking, ordered alternation) for exactly the constructs those patterns
use: literals, character classes under `*`, `+`, `?`, `{n}`, `{n,}`, and
ordered alternation of literals.  Character classes (`\d`, `\s`, `\w`) are
modelled over their ASCII meaning.
-/

namespace ClinicScraper

instance {ε α : Type} [DecidableEq ε] [DecidableEq α] : DecidableEq (Except ε α) := fun a b =>
  match a, b with
  | .error e, .error f =>
    if h : e = f then isTrue (by rw [h]) else isFalse (by intro hh; injection hh; contradiction)
  | .ok x, .ok y =>
    if h : x = y then isTrue (by rw [h]) else isFalse (by intro hh; injection hh; contradiction)
  | .error _, .ok _ => isFalse (by intro hh; exact Except.noConfusion hh)
  | .ok _, .error _ => isFalse (by intro hh; exact Except.noConfusion hh)

/-- ASCII model of Python regex `\s` / `str.strip()` whitespace. -/
def wsChar (c : Char) : Bool :=
  c = ' ' || c = '\t' || c = '\n' || c = '\r' || c = '\x0b' || c = '\x0c'

/-- Python regex `\d` (ASCII). -/
def digitChar (c : Char) : Bool :=
  '0' ≤ c && c ≤ '9'

/-- Python regex `\w` (ASCII model: letters, digits, underscore). -/
def wordChar (c : Char) : Bool :=
  c.isAlphanum || c = '_'

/-- Python `str.strip()`: drop whitespace from both ends. -/
def stripEnds (l : List Char) : List Char :=
  ((l.dropWhile wsChar).reverse.dropWhile wsChar).reverse

/-- Boolean "is prefix of" on character lists (`litPre pat l`). -/
def litPre : List Char → List Char → Bool
  | [], _ => true
  | _ :: _, [] => false
  | p :: ps, c :: cs => p = c && litPre ps cs

/-- Python `sub in s` substring containment. -/
def containsSub (sub : List Char) : List Char → Bool
  | [] => sub.isEmpty
  | c :: rest => litPre sub (c :: rest) || containsSub sub rest

/-- `re.sub(r'\s+', ' ', ·)`: collapse every maximal whitespace run to one
space.  The boolean flag records whether the previous character was part of a
whitespace run already emitted. -/
def collapseGo : Bool → List Char → List Char
  | _, [] => []
  | prevWS, c :: rest =>
    if wsChar c then
      if prevWS then collapseGo true rest else ' ' :: collapseGo true rest
    else c :: collapseGo false rest

def collapseWS (l : List Char) : List Char :=
  collapseGo false l

/-! ## Backtracking matcher combinators

Each combinator consumes from the front of the input and passes every
candidate remainder to the continuation `k`, in the order Python's backtracking
engine would try them; the first success wins. -/

/-- Try candidate remainders in order. -/
def tryOrder (cands : List (List Char)) (k : List Char → Option α) : Option α :=
  cands.findSome? k

/-- Greedy `class*`: longest run first, down to zero characters. -/
def greedyStar (p : Char → Bool) (l : List Char) (k : List Char → Option α) : Option α :=
  let n := (l.takeWhile p).length
  tryOrder ((List.range (n + 1)).map (fun i => l.drop (n - i))) k

/-- Greedy `class+`: longest run first, down to one character. -/
def greedyPlus (p : Char → Bool) (l : List Char) (k : List Char → Option α) : Option α :=
  let n := (l.takeWhile p).length
  tryOrder ((List.range n).map (fun i => l.drop (n - i))) k

/-- Greedy `class{m,}`: longest run first, down to `m` characters. -/
def greedyAtLeast (m : Nat) (p : Char → Bool) (l : List Char) (k : List Char → Option α) :
    Option α :=
  let n := (l.takeWhile p).length
  if n < m then none
  else tryOrder ((List.range (n - m + 1)).map (fun i => l.drop (n - i))) k

/-- `class{m}`: exactly `m` characters of the class. -/
def repExact (m : Nat) (p : Char → Bool) (l : List Char) (k : List Char → Option α) :
    Option α :=
  if m ≤ l.length && (l.take m).all p then k (l.drop m) else none

/-- Greedy `class?`: try consuming one character, then none. -/
def greedyOpt (p : Char → Bool) (l : List Char) (k : List Char → Option α) : Option α :=
  match l with
  | [] => k []
  | c :: rest => if p c then (k rest).orElse (fun _ => k (c :: rest)) else k (c :: rest)

/-- Case-insensitive literal (the pattern is given lowercase). -/
def litCI : List Char → List Char → (List Char → Option α) → Option α
  | [], l, k => k l
  | _ :: _, [], _ => none
  | p :: ps, c :: cs, k => if p = c.toLower then litCI ps cs k else none

/-- Case-sensitive literal. -/
def litEx : List Char → List Char → (List Char → Option α) → Option α
  | [], l, k => k l
  | _ :: _, [], _ => none
  | p :: ps, c :: cs, k => if p = c then litEx ps cs k else none

/-- Ordered alternation of case-insensitive literals. -/
def altCI (lits : List (List Char)) (l : List Char) (k : List Char → Option α) : Option α :=
  lits.findSome? (fun s => litCI s l k)

/-- `re.search`: try the pattern at every start position, leftmost first. -/
def searchFrom (patAt : List Char → Option α) : List Char → Option α
  | [] => patAt []
  | c :: rest => (patAt (c :: rest)).orElse (fun _ => searchFrom patAt rest)

/-! ## Phone extraction (`extract_clinic_details`, lines 142–155)

`phone_patterns = [r'Call\s+([\d\s\(\)\-\+]+)', r'[\(\s]?0[2-9][\d\s\(\)\-]{7,}']`
searched with `re.IGNORECASE`.  For a match of pattern `p` the code does
`phone_match.group(1) if '(' in pattern else phone_match.group(0)`: the literal
character `(` occurs in *both* pattern strings (in the second one only inside
the escapes `\(`), so `group(1)` is taken for both — but the second pattern has
no capture group, so a match of the second pattern raises `IndexError`, which
nothing in the program catches.  The embedding returns `Except Unit`, with
`Except.error ()` standing for that uncaught `IndexError`. -/

/-- Character class `[\d\s\(\)\-\+]` of the first phone pattern (also the class
kept by the cleaning `re.sub(r'[^\d\s\(\)\-\+]', '', ·)`). -/
def phoneCls (c : Char) : Bool :=
  digitChar c || wsChar c || c = '(' || c = ')' || c = '-' || c = '+'

/-- Character class `[\d\s\(\)\-]` of the second phone pattern. -/
def phone2Cls (c : Char) : Bool :=
  digitChar c || wsChar c || c = '(' || c = ')' || c = '-'

/-- Match `Call\s+([\d\s\(\)\-\+]+)` at the start of `l`; returns group 1. -/
def phone1At (l : List Char) : Option (List Char) :=
  litCI "call".data l fun r0 =>
    greedyPlus wsChar r0 fun r1 =>
      greedyPlus phoneCls r1 fun r2 =>
        some (r1.take (r1.length - r2.length))

def searchPhone1 (text : List Char) : Option (List Char) :=
  searchFrom phone1At text

/-- Match `[\(\s]?0[2-9][\d\s\(\)\-]{7,}` at the start of `l`. -/
def phone2At (l : List Char) : Option Unit :=
  greedyOpt (fun c => c = '(' || wsChar c) l fun r0 =>
    litEx "0".data r0 fun r1 =>
      repExact 1 (fun c => '2' ≤ c && c ≤ '9') r1 fun r2 =>
        greedyAtLeast 7 phone2Cls r2 fun _ => some ()

def searchPhone2 (text : List Char) : Bool :=
  (searchFrom phone2At text).isSome

/-- `re.sub(r'[^\d\s\(\)\-\+]', '', phone_text).strip()`. -/
def phoneCleaned (g : List Char) : List Char :=
  stripEnds (g.filter phoneCls)

/-- The phone loop over the two patterns, with break on acceptance.  A match of
the second pattern always raises (`group(1)` with no groups). -/
def phonePat2Step (text : List Char) : Except Unit (List Char) :=
  if searchPhone2 text then Except.error () else Except.ok []

def phoneField (text : List Char) : Except Unit (List Char) :=
  match searchPhone1 text with
  | some g =>
    let c := phoneCleaned g
    if c ≠ [] ∧ c.length > 5 then Except.ok c else phonePat2Step text
  | none => phonePat2Step text

/-! ## Email extraction (line 158): `re.search(r'[\w\.-]+@[\w\.-]+\.\w+', ·)`. -/

def emailCls (c : Char) : Bool :=
  wordChar c || c = '.' || c = '-'

def emailAt (l : List Char) : Option (List Char) :=
  greedyPlus emailCls l fun r1 =>
    litEx "@".data r1 fun r2 =>
      greedyPlus emailCls r2 fun r3 =>
        litEx ".".data r3 fun r4 =>
          greedyPlus wordChar r4 fun r5 =>
            some (l.take (l.length - r5.length))

def emailField (text : List Char) : List Char :=
  match searchFrom emailAt text with
  | some g => g
  | none => []

/-! ## Address extraction (lines 162–180)

Two ordered patterns, searched with `re.IGNORECASE`; the first match is
`.strip()`ped and whitespace-collapsed. -/

/-- `[\s\d\w\-]` (= `[\s\w\-]`, since `\d ⊆ \w`). -/
def addrMixCls (c : Char) : Bool :=
  wsChar c || digitChar c || wordChar c || c = '-'

/-- `[\w\s\.]`. -/
def wordWSDotCls (c : Char) : Bool :=
  wordChar c || wsChar c || c = '.'

/-- `[\w\s]`. -/
def wordWSCls (c : Char) : Bool :=
  wordChar c || wsChar c

/-- `(?:St|Street|Rd|Road|Ave|Avenue|Dr|Drive|Lane|Ln|Crescent|Cres|Court|Ct|Pl|Place|Bvd|Boulevard)`. -/
def streetTokens : List (List Char) :=
  ["st", "street", "rd", "road", "ave", "avenue", "dr", "drive", "lane", "ln",
   "crescent", "cres", "court", "ct", "pl", "place", "bvd", "boulevard"].map String.data

/-- `(?:QLD|NSW|VIC|WA|SA|NT|TAS|ACT)`. -/
def stateTokens : List (List Char) :=
  ["qld", "nsw", "vic", "wa", "sa", "nt", "tas", "act"].map String.data

/-- First address pattern:
`((?:Unit|Suite|No|Lot)[\s\d\w\-]*,\s*\d+[\w\s\.]+(?:street types)\s+[\w\s]+(?:states)\s+\d{4})`. -/
def addr1At (l : List Char) : Option (List Char) :=
  altCI (["unit", "suite", "no", "lot"].map String.data) l fun r0 =>
    greedyStar addrMixCls r0 fun r1 =>
      litEx ",".data r1 fun r2 =>
        greedyStar wsChar r2 fun r3 =>
          greedyPlus digitChar r3 fun r4 =>
            greedyPlus wordWSDotCls r4 fun r5 =>
              altCI streetTokens r5 fun r6 =>
                greedyPlus wsChar r6 fun r7 =>
                  greedyPlus wordWSCls r7 fun r8 =>
                    altCI stateTokens r8 fun r9 =>
                      greedyPlus wsChar r9 fun r10 =>
                        repExact 4 digitChar r10 fun r11 =>
                          some (l.take (l.length - r11.length))

/-- Second address pattern:
`(\d+[\s\w\-]*(?:street types)[\w\s]+(?:states)\s+\d{4})`. -/
def addr2At (l : List Char) : Option (List Char) :=
  greedyPlus digitChar l fun r1 =>
    greedyStar addrMixCls r1 fun r2 =>
      altCI streetTokens r2 fun r3 =>
        greedyPlus wordWSCls r3 fun r4 =>
          altCI stateTokens r4 fun r5 =>
            greedyPlus wsChar r5 fun r6 =>
              repExact 4 digitChar r6 fun r7 =>
                some (l.take (l.length - r7.length))

/-- The address loop (first matching pattern wins; `.strip()` then collapse
whitespace runs). -/
def addressField (text : List Char) : List Char :=
  match searchFrom addr1At text with
  | some g => collapseWS (stripEnds g)
  | none =>
    match searchFrom addr2At text with
    | some g => collapseWS (stripEnds g)
    | none => []

/-! ## DOM model

`BeautifulSoup` values are modelled as rose trees of tags and text fragments.
`get_text()` concatenates all text fragments; `get_text(strip=True)`
concatenates the fragments stripped of surrounding whitespace.  The `find` /
`find_all` family searches tags in document (pre)order; `find_next_sibling()`
with no arguments yields the next sibling *tag*, skipping bare strings. -/

inductive Node where
  | txt (s : List Char)
  | elem (tag : List Char) (children : List Node)

mutual

def nodeText : Node → List Char
  | .txt s => s
  | .elem _ cs => listText cs

def listText : List Node → List Char
  | [] => []
  | n :: rest => nodeText n ++ listText rest

end

mutual

def nodeTextStrip : Node → List Char
  | .txt s => stripEnds s
  | .elem _ cs => listTextStrip cs

def listTextStrip : List Node → List Char
  | [] => []
  | n :: rest => nodeTextStrip n ++ listTextStrip rest

end

/-- Does this node's tag belong to `tags`?  (Text fragments match no tag.) -/
def tagHit (tags : List (List Char)) : Node → Bool
  | .txt _ => false
  | .elem t _ => tags.contains t

mutual

/-- Search within one node's subtree (the node itself excluded). -/
def findAnyTagN (tags : List (List Char)) : Node → Option Node
  | .txt _ => none
  | .elem _ cs => findAnyTagIn tags cs

/-- `soup.find(tags)` over a child list: first element (preorder) whose tag is
in `tags`. -/
def findAnyTagIn (tags : List (List Char)) : List Node → Option Node
  | [] => none
  | n :: rest =>
    if tagHit tags n then some n
    else
      match findAnyTagN tags n with
      | some m => some m
      | none => findAnyTagIn tags rest

end

/-! ## Services extraction (`extract_clinic_details`, lines 182–213) -/

/-- `re.sub(r'\[([^\]]+)\]\([^\)]+\)', r'\1', ·)`: match one markdown-style
link `[inner](url)` at the start of the input, returning `inner` and the
remainder after the closing parenthesis. -/
def mdLinkAt : List Char → Option (List Char × List Char)
  | '[' :: r1 =>
    let inner := r1.takeWhile (fun c => c ≠ ']')
    let r2 := r1.drop inner.length
    match r2 with
    | ']' :: '(' :: r3 =>
      if inner = [] then none
      else
        let url := r3.takeWhile (fun c => c ≠ ')')
        let r4 := r3.drop url.length
        match r4 with
        | ')' :: r5 => if url = [] then none else some (inner, r5)
        | _ => none
    | _ => none
  | _ => none

/-- Left-to-right, non-overlapping replacement of markdown links by their
visible text.  The fuel is the input length; every step consumes at least one
character, so the fuel never runs out. -/
def mdSubGo : Nat → List Char → List Char
  | 0, l => l
  | _ + 1, [] => []
  | fuel + 1, c :: rest =>
    match mdLinkAt (c :: rest) with
    | some (inner, after) => inner ++ mdSubGo fuel after
    | none => c :: mdSubGo fuel rest

def mdSub (l : List Char) : List Char :=
  mdSubGo l.length l

/-- Is this node an `h2`/`h3` element whose full text contains
`"Services Available"`? -/
def svcHeadingHit : Node → Bool
  | .txt _ => false
  | .elem tag cs =>
    (tag = "h2".data || tag = "h3".data) &&
      containsSub "Services Available".data (listText cs)

mutual

/-- Search within one node's subtree for the services heading. -/
def svcFindN : Node → Option (List Node)
  | .txt _ => none
  | .elem _ cs => svcFind cs

/-- Find the first `h2`/`h3` heading (document preorder, as `find_all` would
list them) whose full text contains `"Services Available"`; return the list of
its following siblings. -/
def svcFind : List Node → Option (List Node)
  | [] => none
  | n :: rest =>
    if svcHeadingHit n then some rest
    else
      match svcFindN n with
      | some sibs => some sibs
      | none => svcFind rest

end

/-- The sibling walk: stop at the next `h2`; from every `article` sibling take
the text of its first embedded `h3`, strip the markdown link wrapper, and keep
it when longer than 2 characters. -/
def svcCollect : List Node → List (List Char)
  | [] => []
  | .txt _ :: rest => svcCollect rest
  | .elem tag cs :: rest =>
    if tag = "h2".data then []
    else if tag = "article".data then
      match findAnyTagIn ["h3".data] cs with
      | some n =>
        let t := mdSub (nodeTextStrip n)
        if t ≠ [] ∧ t.length > 2 then t :: svcCollect rest else svcCollect rest
      | none => svcCollect rest
    else svcCollect rest

def svcScan (dom : List Node) : List (List Char) :=
  match svcFind dom with
  | none => []
  | some sibs => svcCollect sibs

/-- `', '.join(services)`. -/
def joinCommaSp : List (List Char) → List Char
  | [] => []
  | [x] => x
  | x :: xs => x ++ ", ".data ++ joinCommaSp xs

/-- `details['Services'] = ', '.join(services) if services else ''`. -/
def servicesField (dom : List Node) : List Char :=
  let s := svcScan dom
  if s = [] then [] else joinCommaSp s

/-! ## Clinic record extraction (`extract_clinic_details`, lines 119–220) -/

structure Record where
  clinicName : List Char
  address : List Char
  email : List Char
  phone : List Char
  services : List Char
deriving DecidableEq, Repr

/-- `ADDRESS_OVERRIDES` (lines 26–28). -/
def addressOverrides : List (List Char × List Char) :=
  [("Allsports Podiatry Noosa".data, "Unit 4, 17 Sunshine Beach Rd\nNoosa QLD 4567".data)]

/-- `ADDRESS_OVERRIDES.get(name)`. -/
def overridesGet (k : List Char) : Option (List Char) :=
  (addressOverrides.find? (fun p => p.1 == k)).map (fun p => p.2)

/-- `override = ADDRESS_OVERRIDES.get(name); if override: details['Address'] = override`
(the `if` is a Python truthiness test, so an empty-string override would not
apply). -/
def applyOverride (r : Record) : Record :=
  match overridesGet r.clinicName with
  | some v => if v ≠ [] then ⟨r.clinicName, v, r.email, r.phone, r.services⟩ else r
  | none => r

/-- Outcome of fetching and parsing one clinic page.  `fetchFail` models
`get_page_content` returning `None` (then `BeautifulSoup(None, ...)` raises
inside the second `try`, which is caught); `parseFail` models a parse error
caught by the same handler; `page dom` is a successfully parsed document. -/
inductive PageOutcome where
  | fetchFail
  | parseFail
  | page (dom : List Node)

/-- `extract_clinic_details(clinic_url, clinic_name)`.  Returns `ok none` when
fetch or parse failed (the function returns `None`), `ok (some record)` on
success, and `error ()` when the phone loop raises the uncaught `IndexError`
(second phone pattern matched, `group(1)` with no groups). -/
def extractClinicDetails (outcome : PageOutcome) (clinicName : List Char) :
    Except Unit (Option Record) :=
  match outcome with
  | .fetchFail => Except.ok none
  | .parseFail => Except.ok none
  | .page dom =>
    let textContent := listText dom
    match phoneField textContent with
    | .error e => Except.error e
    | .ok phone =>
      Except.ok (some (applyOverride
        ⟨clinicName, addressField textContent, emailField textContent, phone,
         servicesField dom⟩))

/-! ## Fetcher (`get_page_content`, lines 29–46)

Per-attempt outcomes are abstracted by an oracle: `oracle i = some text` means
attempt `i` returned a 2xx response with body `text`; `oracle i = none` means
attempt `i` raised (timeout, connection error, or `raise_for_status` on a bad
status) — the bare `except Exception` catches all of these uniformly.  The
trace records how many attempts ran and how many `time.sleep(1)` pauses
(1 second each) separated them. -/

structure FetchTrace where
  attempts : Nat
  sleeps : Nat
  result : Option (List Char)
deriving DecidableEq, Repr

def maxRetries : Nat := 3

/-- The retry loop from attempt index `attempt` with `rem` attempts remaining:
on success return the text; on failure sleep and continue unless this was the
final attempt, in which case log and return `None`. -/
def fetchFrom (oracle : Nat → Option (List Char)) (attempt : Nat) : Nat → FetchTrace
  | 0 => ⟨0, 0, none⟩
  | rem + 1 =>
    match oracle attempt with
    | some t => ⟨1, 0, some t⟩
    | none =>
      if rem = 0 then ⟨1, 0, none⟩
      else
        let sub := fetchFrom oracle (attempt + 1) rem
        ⟨sub.attempts + 1, sub.sleeps + 1, sub.result⟩

def getPageContent (oracle : Nat → Option (List Char)) : FetchTrace :=
  fetchFrom oracle 0 maxRetries

/-! ## Region Lister (`extract_clinics_from_region`, lines 54–117, and
`build_clinic_url`, lines 48–52) -/

/-- `BASE_URL` (line 8). -/
def baseUrl : List Char :=
  "https://web.archive.org/web/20250708180027/https://www.myfootdr.com.au".data

/-- The archival-snapshot marker removed at line 103:
`'https://web.archive.org/web/20250708180027/'`. -/
def archivalMarker : List Char :=
  "https://web.archive.org/web/20250708180027/".data

/-- The live-site stem every produced clinic URL should start with. -/
def liveClinicStem : List Char :=
  "https://www.myfootdr.com.au/our-clinics/".data

/-- `REGIONS` (lines 11–23). -/
def regionsList : List (List Char) :=
  ["sunshine-coast", "brisbane", "gold-coast", "north-queensland",
   "central-queensland", "new-south-wales", "victoria", "south-australia",
   "western-australia", "northern-territory", "tasmania"].map String.data

/-- Python `str.replace(pat, rep)`: replace all non-overlapping occurrences,
left to right.  Fueled by the input length (each step consumes at least one
character whenever `pat` is nonempty). -/
def replaceGo (pat rep : List Char) : Nat → List Char → List Char
  | _, [] => []
  | 0, l => l
  | fuel + 1, c :: rest =>
    if litPre pat (c :: rest) then rep ++ replaceGo pat rep fuel ((c :: rest).drop pat.length)
    else c :: replaceGo pat rep fuel rest

def pyReplace (s pat rep : List Char) : List Char :=
  replaceGo pat rep s.length s

/-- `clinic_path.lstrip('/')`. -/
def lstripSlash (l : List Char) : List Char :=
  l.dropWhile (fun c => c = '/')

/-- `build_clinic_url`: `f"{BASE_URL}/{clinic_path.lstrip('/')}"`. -/
def buildClinicUrl (clinicPath : List Char) : List Char :=
  baseUrl ++ '/' :: lstripSlash clinicPath

/-- Lines 104–105: build the snapshot URL for `our-clinics/<slug>/`, then
strip the archival marker. -/
def clinicUrlFromSlug (slug : List Char) : List Char :=
  pyReplace (buildClinicUrl ("our-clinics/".data ++ slug ++ ['/'])) archivalMarker []

/-- `re.search(r'/our-clinics/([^/]+)/', href)` (line 90): leftmost position
where the literal is followed by at least one non-`/` character and then a
`/`; returns group 1. -/
def slugSearch : List Char → Option (List Char)
  | [] => none
  | c :: rest =>
    if litPre "/our-clinics/".data (c :: rest) then
      let t := (c :: rest).drop 13
      let n := t.takeWhile (fun x => x ≠ '/')
      if 1 ≤ n.length ∧ n.length < t.length then some n else slugSearch rest
    else slugSearch rest

/-- First occurrence of `marker`: the text after it, or `none`. -/
def afterFirstMarker (marker : List Char) : List Char → Option (List Char)
  | [] => none
  | c :: rest =>
    if litPre marker (c :: rest) then some ((c :: rest).drop marker.length)
    else afterFirstMarker marker rest

/-- `href.split(marker)[-1]`: the text after the last non-overlapping
occurrence (the whole string when the marker is absent).  Fueled by the input
length. -/
def afterLastGo (marker : List Char) : Nat → List Char → List Char
  | 0, l => l
  | fuel + 1, l =>
    match afterFirstMarker marker l with
    | none => l
    | some t => afterLastGo marker fuel t

/-- The fallback of lines 95–100:
`href.split('/our-clinics/')[-1].split('/')[0].strip()`. -/
def slugFallback (href : List Char) : List Char :=
  stripEnds ((afterLastGo "/our-clinics/".data href.length href).takeWhile (fun c => c ≠ '/'))

/-- Lines 89–101: primary regex slug extraction with the split fallback,
followed by the `if clinic_slug:` truthiness test (the regex group is
necessarily nonempty, so the test only bites on the fallback path). -/
def extractClinicSlug (href : List Char) : Option (List Char) :=
  match slugSearch href with
  | some s => some s
  | none =>
    let fb := slugFallback href
    if fb = [] then none else some fb

/-- A clinic link (`{'name': text, 'url': clinic_url}`). -/
structure Clinic where
  linkName : List Char
  url : List Char
deriving DecidableEq, Repr

/-- An anchor element of the region page, with the attributes the code reads.
`children` is the anchor's subtree (for `get_text(strip=True)` and the nested
heading fallback); `title`/`ariaLabel` are `None` when absent. -/
structure Anchor where
  href : List Char
  title : Option (List Char)
  ariaLabel : Option (List Char)
  children : List Node

/-- Python `a or b` on strings (first truthy). -/
def orText (a b : List Char) : List Char :=
  if a = [] then b else a

/-- Lines 70–78: the display-name fallback chain — visible text, then
`title` / `aria-label` (Python `or` chain), then a nested `h2`/`h3`/`h4`
heading. -/
def anchorText (a : Anchor) : List Char :=
  let text0 := listTextStrip a.children
  if text0 = [] ∨ text0.length < 2 then
    let t := orText (a.title.getD []) (a.ariaLabel.getD [])
    if t = [] then
      match findAnyTagIn ["h2".data, "h3".data, "h4".data] a.children with
      | some n => nodeTextStrip n
      | none => t
    else t
  else text0

/-- Lines 68–106: per-anchor processing — display-name resolution, the
`Our Clinics` skip, the clinic-path test, slug extraction and URL building.
Returns the clinic link appended for this anchor, if any. -/
def processAnchor (a : Anchor) : Option Clinic :=
  let text1 := anchorText a
  if a.href = [] ∨ text1 = [] ∨ text1.length < 2 then none
  else if stripEnds text1 = "Our Clinics".data then none
  else if containsSub "/our-clinics/".data a.href && !containsSub "/regions/".data a.href then
    match extractClinicSlug a.href with
    | some slug => some ⟨text1, clinicUrlFromSlug slug⟩
    | none => none
  else none

/-- Lines 108–114: deduplicate by URL with a `seen` set, keeping first
occurrences in order. -/
def dedupGo (seen : List (List Char)) : List Clinic → List Clinic
  | [] => []
  | c :: rest =>
    if c.url ∈ seen then dedupGo seen rest
    else c :: dedupGo (c.url :: seen) rest

def dedupClinics (l : List Clinic) : List Clinic :=
  dedupGo [] l

/-- `extract_clinics_from_region` after the page was fetched and parsed: the
anchor scan followed by deduplication. -/
def extractClinicsFromRegion (anchors : List Anchor) : List Clinic :=
  dedupClinics (anchors.filterMap processAnchor)

/-! ## Output (`scrape_all_clinics`, lines 222–274)

The CSV writer is the stdlib `csv.DictWriter` with the default `excel`
dialect: delimiter `,`, quote character `"`, `QUOTE_MINIMAL` (a field is
quoted iff it contains the delimiter, the quote character, or a line
terminator character), quotes doubled, rows terminated by CRLF.  That module
is not part of the repository, so writer and reader are modelled from the
spec's words ("standard delimited-text escaping"). -/

/-- The header `['Name of Clinic', 'Address', 'Email', 'Phone', 'Services']`. -/
def headerFields : List (List Char) :=
  ["Name of Clinic", "Address", "Email", "Phone", "Services"].map String.data

/-- A record's five field values in header order. -/
def recFields (r : Record) : List (List Char) :=
  [r.clinicName, r.address, r.email, r.phone, r.services]

/-- Modelled from the spec: QUOTE_MINIMAL — quote a field iff it contains a
delimiter, a quote or a line-terminator character. -/
def needsQuote (f : List Char) : Bool :=
  f.any (fun c => c = ',' || c = '"' || c = '\r' || c = '\n')

/-- Modelled from the spec: double every quote character. -/
def escQuotes : List Char → List Char
  | [] => []
  | c :: rest => if c = '"' then '"' :: '"' :: escQuotes rest else c :: escQuotes rest

def renderField (f : List Char) : List Char :=
  if needsQuote f then '"' :: (escQuotes f ++ ['"']) else f

/-- Modelled from the spec: one CSV row, comma-separated, CRLF-terminated. -/
def renderRow : List (List Char) → List Char
  | [] => ['\r', '\n']
  | [f] => renderField f ++ ['\r', '\n']
  | f :: fs => renderField f ++ ',' :: renderRow fs

/-- The full file content: header row, then one row per record. -/
def csvContent (records : List Record) : List Char :=
  renderRow headerFields ++ ((records.map recFields).map renderRow).flatten

mutual

/-- Modelled from the spec: standard CSV reader, quoted-field body — stop at a
lone quote, a doubled quote is a literal quote. -/
def parseQuoted : List Char → List Char × List Char
  | [] => ([], [])
  | c :: rest =>
    if c = '"' then parseQuotedQ rest
    else
      let fr := parseQuoted rest
      (c :: fr.1, fr.2)

/-- Inside a quoted field, just after a quote character: another quote means a
literal quote, anything else ends the field before it. -/
def parseQuotedQ : List Char → List Char × List Char
  | [] => ([], [])
  | c :: rest =>
    if c = '"' then
      let fr := parseQuoted rest
      ('"' :: fr.1, fr.2)
    else ([], c :: rest)

end

/-- Modelled from the spec: unquoted field — up to a comma or line end. -/
def parseUnquoted : List Char → List Char × List Char
  | [] => ([], [])
  | c :: rest =>
    if c = ',' || c = '\r' || c = '\n' then ([], c :: rest)
    else
      let fr := parseUnquoted rest
      (c :: fr.1, fr.2)

/-- One field with its remainder (the remainder starts with the delimiter). -/
def parseField (l : List Char) : List Char × List Char :=
  match l with
  | [] => parseUnquoted []
  | c :: rest => if c = '"' then parseQuoted rest else parseUnquoted (c :: rest)

/-- A row terminator: `\r\n` as a pair, or a lone `\r` / `\n`. -/
def chompLF (d : Char) (r : List Char) : List Char :=
  if d = '\r' then
    match r with
    | '\n' :: r3 => r3
    | _ => r
  else r

/-- All rows.  `acc` is the current row's finished fields; fueled by the input
length plus one (each field step consumes at least one character). -/
def parseRowsGo : Nat → List (List Char) → List Char → List (List (List Char))
  | 0, _, _ => []
  | _ + 1, acc, [] => if acc = [] then [] else [acc ++ [[]]]
  | fuel + 1, acc, c :: rest =>
    let fr := parseField (c :: rest)
    match fr.2 with
    | [] => [acc ++ [fr.1]]
    | d :: r2 =>
      if d = ',' then parseRowsGo fuel (acc ++ [fr.1]) r2
      else (acc ++ [fr.1]) :: parseRowsGo fuel [] (chompLF d r2)

def parseRows (l : List Char) : List (List (List Char)) :=
  parseRowsGo (l.length + 1) [] l

/-! ## Orchestrator (`scrape_all_clinics`, lines 222–274) -/

/-- The Detailing phase (lines 241–259): iterate the clinics, append a record
whenever the extractor returned one, skip it when the extractor returned
`None`; an uncaught exception from the extractor aborts the whole run (there
is no `try` around the loop body). -/
def detailPhase (oracle : Clinic → PageOutcome) : List Clinic → Except Unit (List Record)
  | [] => Except.ok []
  | c :: rest =>
    match extractClinicDetails (oracle c) c.linkName with
    | .error e => Except.error e
    | .ok none => detailPhase oracle rest
    | .ok (some r) => (detailPhase oracle rest).map (fun rs => r :: rs)

/-- Observable effects of the Writing phase. -/
inductive OutEvent where
  | openOutFile (path : List Char) (content : List Char)
  | printLine (s : List Char)
deriving DecidableEq, Repr

/-- The hardcoded output path (line 262). -/
def csvFilePath : List Char :=
  "/Users/kittubittu/Documents/clinic-data-scraper/clinics.csv".data

/-- The Writing phase (lines 261–274): `if clinic_data:` open the file and
write header plus rows, else print the no-data notice.  (The success branch's
console summary lines are elided; the claims are about the file and the
notice.) -/
def writePhase (records : List Record) : List OutEvent :=
  if records = [] then [OutEvent.printLine "No clinic data found!".data]
  else [OutEvent.openOutFile csvFilePath (csvContent records)]

/-! ## Sample values used in concrete theorems -/

/-- A service card `<article><h3>Podiatry</h3></article>`. -/
def artPodiatry : Node :=
  Node.elem "article".data [Node.elem "h3".data [Node.txt "Podiatry".data]]

/-- A service card `<article><h3>Orthotics</h3></article>`. -/
def artOrthotics : Node :=
  Node.elem "article".data [Node.elem "h3".data [Node.txt "Orthotics".data]]

/-- A parsed clinic page: a "Services Available" `h2`, the two service cards,
then the next section's `h2`. -/
def svcSampleDom : List Node :=
  [Node.elem "h2".data [Node.txt "Services Available".data],
   artPodiatry, artOrthotics,
   Node.elem "h2".data [Node.txt "Opening Hours".data]]

/-- A page text that contains `123 Main St Noosa QLD 4567` (at position 0, so
no earlier match of either address pattern exists) yet whose trailing text
extends the second address pattern's match. -/
def addrCounterText : List Char :=
  "123 Main St Noosa QLD 4567 SA 1111".data

/-- An anchor of a region page pointing at a clinic. -/
def sampleAnchor : Anchor :=
  ⟨"/our-clinics/noosa/".data, none, none, [Node.txt "Noosa Clinic".data]⟩

/-- Total number of fields over a list of rows. -/
def totalFields (rows : List (List (List Char))) : Nat :=
  (rows.map List.length).sum

example : extractClinicSlug "/web/20250708180027/https://www.myfootdr.com.au/our-clinics/noosa/".data
    = some "noosa".data := by decide

example : clinicUrlFromSlug "noosa".data
    = "https://www.myfootdr.com.au/our-clinics/noosa/".data := by decide

example : parseRows (csvContent [⟨"A, \"B\"".data, "1 X St\nY QLD 4000".data, [], [], []⟩])
    = [headerFields, ["A, \"B\"".data, "1 X St\nY QLD 4000".data, [], [], []]] := by decide

example : getPageContent (fun _ => none) = ⟨3, 2, none⟩ := by decide

example : getPageContent (fun i => if i = 1 then some "ok".data else none) =
    ⟨2, 1, some "ok".data⟩ := by decide

example :
    extractClinicDetails (.page [Node.txt "(07) 5555 1234".data]) "X".data
      = Except.error () := by decide

example :
    extractClinicDetails
      (.page [Node.elem "h2".data [Node.txt "Services Available".data],
              Node.elem "article".data [Node.elem "h3".data [Node.txt "Podiatry".data]],
              Node.elem "article".data [Node.elem "h3".data [Node.txt "Orthotics".data]]])
      "X".data
      = Except.ok (some ⟨"X".data, [], [], [], "Podiatry, Orthotics".data⟩) := by decide

example : mdSub "[Podiatry](https://x.y)".data = "Podiatry".data := by decide

/-! # Theorems -/

/-- One unfolding step of the retry loop. -/
theorem fetchFrom_step (oracle : Nat → Option (List Char)) (a r : Nat) :
    fetchFrom oracle a (r + 1) =
      match oracle a with
      | some t => ⟨1, 0, some t⟩
      | none =>
        if r = 0 then ⟨1, 0, none⟩
        else
          let sub := fetchFrom oracle (a + 1) r
          ⟨sub.attempts + 1, sub.sleeps + 1, sub.result⟩ := rfl

/-- C3: the Fetcher makes at most 3 attempts, with exactly one 1-second pause
between consecutive attempts (`sleeps = attempts - 1`); when all 3 attempts
fail it returns the failure signal `None` after 3 attempts and 2 pauses.  The
loop body catches every exception (`except Exception`), so the embedding is a
total function into `Option`: no exception reaches the caller. -/
theorem fetcher_retry_bound (oracle : Nat → Option (List Char)) :
    (getPageContent oracle).attempts ≤ 3 ∧
    (getPageContent oracle).sleeps + 1 = (getPageContent oracle).attempts ∧
    ((∀ i, i < 3 → oracle i = none) → getPageContent oracle = ⟨3, 2, none⟩) := by
  have h3 : (∀ i, i < 3 → oracle i = none) → getPageContent oracle = ⟨3, 2, none⟩ := by
    intro h
    simp [getPageContent, maxRetries, fetchFrom_step oracle 0 2, fetchFrom_step oracle 1 1,
      fetchFrom_step oracle 2 0, h 0 (by omega), h 1 (by omega), h 2 (by omega)]
  refine ⟨?_, ?_, h3⟩ <;>
    cases h0 : oracle 0 <;> cases h1 : oracle 1 <;> cases h2 : oracle 2 <;>
      simp [getPageContent, maxRetries, fetchFrom_step oracle 0 2, fetchFrom_step oracle 1 1,
        fetchFrom_step oracle 2 0, h0, h1, h2]

/-- C3 witness: the all-failing oracle runs 3 attempts, 2 pauses, and returns
the failure signal. -/
theorem fetcher_retry_bound_witness : getPageContent (fun _ => none) = ⟨3, 2, none⟩ :=
  (fetcher_retry_bound (fun _ => none)).2.2 (fun _ _ => rfl)

/-- C9: with an empty collected record set the Writing phase emits exactly the
"No clinic data found!" notice and nothing else — in particular no
file-open event, so an existing output file is untouched; and zero discovered
clinics give the empty record set. -/
theorem no_data_skips_writing (pageOracle : Clinic → PageOutcome) :
    detailPhase pageOracle [] = Except.ok [] ∧
    writePhase [] = [OutEvent.printLine "No clinic data found!".data] := by
  exact ⟨rfl, by simp [writePhase]⟩

/-- C1: on a page whose flattened text is `(07) 5555 1234` the first phone
pattern does not match, the second does — and the extractor raises (the
`'(' in pattern` test is true for the second pattern because of its escaped
parentheses, so `group(1)` is taken although that pattern has no capture
group), aborting instead of setting the Phone field and returning the
record. -/
theorem phone_second_pattern_raises :
    searchPhone1 "(07) 5555 1234".data = none ∧
    searchPhone2 "(07) 5555 1234".data = true ∧
    extractClinicDetails (.page [Node.txt "(07) 5555 1234".data]) "Sample Clinic".data
      = Except.error () := by decide

/-- C8 counterexample: `addrCounterText` contains `123 Main St Noosa QLD 4567`
at position 0 (so there is no earlier match of either address pattern), yet
the Address field of the returned record is the whole extended match, not that
substring: the trailing `SA 1111` extends the second pattern's match. -/
theorem address_match_extends_counterexample :
    litPre "123 Main St Noosa QLD 4567".data addrCounterText = true ∧
    extractClinicDetails (.page [Node.txt addrCounterText]) "Sample Page".data
      = Except.ok (some ⟨"Sample Page".data, addrCounterText, [], [], []⟩) ∧
    addrCounterText ≠ "123 Main St Noosa QLD 4567".data := by decide

/-- C8 amended: when the flattened text is exactly `123 Main St Noosa QLD 4567`
the Address field equals that text (whitespace runs collapsed). -/
theorem address_exact_text_extracted :
    extractClinicDetails (.page [Node.txt "123 Main St Noosa QLD 4567".data])
        "Sample Clinic".data
      = Except.ok (some ⟨"Sample Clinic".data, "123 Main St Noosa QLD 4567".data,
          [], [], []⟩) := by decide

/-- A raising phone extraction propagates out of the extractor. -/
theorem extract_page_err (dom : List Node) (nm : List Char)
    (hp : phoneField (listText dom) = Except.error ()) :
    extractClinicDetails (.page dom) nm = Except.error () := by
  simp [extractClinicDetails, hp]

/-- The record returned for a parsed page whose phone extraction does not
raise. -/
theorem extract_page_ok (dom : List Node) (nm ph : List Char)
    (hp : phoneField (listText dom) = Except.ok ph) :
    extractClinicDetails (.page dom) nm
      = Except.ok (some (applyOverride
          ⟨nm, addressField (listText dom), emailField (listText dom), ph,
           servicesField dom⟩)) := by
  simp [extractClinicDetails, hp]

/-- C5: a returned record whose name is exactly the override key has the
override value as its Address, whatever was extracted; a name that is no key
keeps the extracted address. -/
theorem address_override_replaces (dom : List Node) (nm : List Char) (r : Record)
    (h : extractClinicDetails (.page dom) nm = Except.ok (some r)) :
    (nm = "Allsports Podiatry Noosa".data →
        r.address = "Unit 4, 17 Sunshine Beach Rd\nNoosa QLD 4567".data) ∧
    (overridesGet nm = none → r.address = addressField (listText dom)) := by
  cases hp : phoneField (listText dom) with
  | error e =>
    cases e
    rw [extract_page_err dom nm hp] at h
    exact absurd h (by simp)
  | ok ph =>
    rw [extract_page_ok dom nm ph hp] at h
    have hr : applyOverride
        ⟨nm, addressField (listText dom), emailField (listText dom), ph,
         servicesField dom⟩ = r := by
      injection h with h1
      injection h1
    constructor
    · intro hnm
      subst hnm
      rw [← hr]
      have hkey : overridesGet "Allsports Podiatry Noosa".data
          = some "Unit 4, 17 Sunshine Beach Rd\nNoosa QLD 4567".data := by decide
      simp [applyOverride, hkey]
    · intro hov
      rw [← hr]
      simp [applyOverride, hov]

/-- The boolean prefix test agrees with `List.IsPrefix`. -/
theorem litPre_iff_pre (p : List Char) : ∀ l, litPre p l = true ↔ p <+: l := by
  induction p with
  | nil => intro l; simp [litPre]
  | cons x xs ih =>
    intro l
    cases l with
    | nil => simp [litPre]
    | cons c cs => simp [litPre, ih cs, List.cons_prefix_cons]

/-- When the pattern occurs nowhere in the input, `str.replace` is the
identity (whatever the fuel). -/
theorem replaceGo_no_occur (pat rep : List Char) :
    ∀ (l : List Char) (fuel : Nat), (∀ i, litPre pat (l.drop i) = false) →
      replaceGo pat rep fuel l = l := by
  intro l
  induction l with
  | nil =>
    intro fuel _
    cases fuel <;> rfl
  | cons c rest ih =>
    intro fuel h
    cases fuel with
    | zero => rfl
    | succ f =>
      have h0 : litPre pat (c :: rest) = false := by simpa using h 0
      simp only [replaceGo, h0, Bool.false_eq_true, if_false]
      exact congrArg (fun t => c :: t) (ih f (fun i => by simpa using h (i + 1)))

/-- `str.replace(pat, '')` on an input that starts with `pat` and continues
with pattern-free text removes exactly that leading occurrence. -/
theorem pyReplace_strip (p : Char) (pt X : List Char)
    (hno : ∀ i, litPre (p :: pt) (X.drop i) = false) :
    pyReplace ((p :: pt) ++ X) (p :: pt) [] = X := by
  show replaceGo (p :: pt) [] ((p :: (pt ++ X)).length) (p :: (pt ++ X)) = X
  rw [List.length_cons]
  have hpre : litPre (p :: pt) (p :: (pt ++ X)) = true := by
    rw [litPre_iff_pre]
    exact List.prefix_append _ _
  simp only [replaceGo, hpre, if_true]
  have hdrop : (p :: (pt ++ X)).drop (p :: pt).length = X := List.drop_left (p :: pt) X
  rw [List.nil_append, hdrop]
  exact replaceGo_no_occur _ _ X _ hno

/-- The archival marker occurs nowhere in the live clinic URL
`liveClinicStem ++ slug ++ "/"` (for a slash-free slug): at offsets below 8
the characters disagree, and from offset 8 on there are at most 3 slashes
left while the marker has 5. -/
theorem arch_not_in_live (slug : List Char) (hs : '/' ∉ slug) :
    ∀ i, litPre archivalMarker ((liveClinicStem ++ (slug ++ ['/'])).drop i) = false := by
  intro i
  rw [Bool.eq_false_iff]
  intro hocc
  have hpre : archivalMarker <+: (liveClinicStem ++ (slug ++ ['/'])).drop i :=
    (litPre_iff_pre _ _).1 hocc
  rcases Nat.lt_or_ge i 8 with hlt | hge
  · have hd : (liveClinicStem ++ (slug ++ ['/'])).drop i
        = liveClinicStem.drop i ++ (slug ++ ['/']) := by
      apply List.drop_append_of_le_length
      have h1 : liveClinicStem.length = 40 := by decide
      omega
    rw [hd] at hpre
    have hlen : (liveClinicStem.drop i).length ≤ archivalMarker.length := by
      have h1 : liveClinicStem.length = 40 := by decide
      have h2 : archivalMarker.length = 43 := by decide
      rw [List.length_drop]
      omega
    have hpre2 : liveClinicStem.drop i <+: archivalMarker :=
      List.prefix_of_prefix_length_le (List.prefix_append _ _) hpre hlen
    interval_cases i <;> exact absurd hpre2 (by decide)
  · obtain ⟨t, ht⟩ := hpre
    have hc1 : 5 ≤ List.count '/' (archivalMarker ++ t) := by
      rw [List.count_append]
      have h5 : List.count '/' archivalMarker = 5 := by decide
      omega
    have hsub : ((liveClinicStem ++ (slug ++ ['/'])).drop i).Sublist
        ((liveClinicStem ++ (slug ++ ['/'])).drop 8) := by
      have h8 : i = 8 + (i - 8) := by omega
      rw [h8, ← List.drop_drop]
      exact List.drop_sublist _ _
    have hc2 : List.count '/' ((liveClinicStem ++ (slug ++ ['/'])).drop 8) = 3 := by
      have hd8 : (liveClinicStem ++ (slug ++ ['/'])).drop 8
          = liveClinicStem.drop 8 ++ (slug ++ ['/']) := by
        apply List.drop_append_of_le_length
        have h1 : liveClinicStem.length = 40 := by decide
        omega
      rw [hd8, List.count_append, List.count_append]
      have h1 : List.count '/' (liveClinicStem.drop 8) = 2 := by decide
      have h2 : List.count '/' slug = 0 := List.count_eq_zero.2 hs
      have h3 : List.count '/' ['/'] = 1 := by decide
      omega
    have hc3 := hsub.count_le '/'
    rw [ht] at hc1
    omega

/-- For a slash-free slug the built clinic URL, after removing the archival
marker, is the live-site URL. -/
theorem clinicUrlFromSlug_live (slug : List Char) (hs : '/' ∉ slug) :
    clinicUrlFromSlug slug = liveClinicStem ++ (slug ++ ['/']) := by
  have h1 : lstripSlash ("our-clinics/".data ++ slug ++ ['/'])
      = "our-clinics/".data ++ slug ++ ['/'] := rfl
  have h2 : baseUrl ++ ('/' :: "our-clinics/".data) = archivalMarker ++ liveClinicStem := by
    decide
  have hkey : baseUrl ++ '/' :: lstripSlash ("our-clinics/".data ++ slug ++ ['/'])
      = archivalMarker ++ (liveClinicStem ++ (slug ++ ['/'])) := by
    rw [h1]
    calc baseUrl ++ '/' :: (("our-clinics/".data ++ slug) ++ ['/'])
        = (baseUrl ++ ('/' :: "our-clinics/".data)) ++ (slug ++ ['/']) := by
          simp [List.cons_append, List.append_assoc]
      _ = (archivalMarker ++ liveClinicStem) ++ (slug ++ ['/']) := by rw [h2]
      _ = archivalMarker ++ (liveClinicStem ++ (slug ++ ['/'])) := by
          rw [List.append_assoc]
  show pyReplace (baseUrl ++ '/' :: lstripSlash ("our-clinics/".data ++ slug ++ ['/']))
      archivalMarker [] = _
  rw [hkey]
  exact pyReplace_strip 'h' "ttps://web.archive.org/web/20250708180027/".data _
    (arch_not_in_live slug hs)

/-- The regex-extracted slug contains no slash (its class is `[^/]`). -/
theorem slugSearch_no_slash (href : List Char) :
    ∀ s, slugSearch href = some s → '/' ∉ s := by
  induction href with
  | nil =>
    intro s h
    simp [slugSearch] at h
  | cons c rest ih =>
    intro s h
    simp only [slugSearch] at h
    split at h
    · split at h
      · injection h with h1
        subst h1
        intro hmem
        have := List.mem_takeWhile_imp hmem
        simp at this
      · exact ih s h
    · exact ih s h

/-- Stripping only removes characters. -/
theorem mem_stripEnds (x : Char) (l : List Char) (h : x ∈ stripEnds l) : x ∈ l := by
  unfold stripEnds at h
  have h1 := List.mem_reverse.1 h
  have h2 : x ∈ (l.dropWhile wsChar).reverse :=
    List.Sublist.mem h1 (List.dropWhile_sublist _)
  have h3 := List.mem_reverse.1 h2
  exact List.Sublist.mem h3 (List.dropWhile_sublist _)

/-- The fallback slug contains no slash (it is a `split('/')` segment). -/
theorem slugFallback_no_slash (href : List Char) : '/' ∉ slugFallback href := by
  intro hmem
  have h1 := mem_stripEnds _ _ hmem
  have h2 := List.mem_takeWhile_imp h1
  simp at h2

/-- Either way the Region Lister obtains a slug, it contains no slash. -/
theorem extractClinicSlug_no_slash (href s : List Char)
    (h : extractClinicSlug href = some s) : '/' ∉ s := by
  unfold extractClinicSlug at h
  cases hx : slugSearch href with
  | some s2 =>
    rw [hx] at h
    have h2 : some s2 = some s := h
    injection h2 with h1
    subst h1
    exact slugSearch_no_slash href _ hx
  | none =>
    rw [hx] at h
    have h2 : (if slugFallback href = [] then none else some (slugFallback href)) = some s := h
    split at h2
    · exact absurd h2 (by simp)
    · injection h2 with h1
      subst h1
      exact slugFallback_no_slash href

/-- C2: every clinic link the Region Lister accepts points at
`https://www.myfootdr.com.au/our-clinics/<slug>/` — the archival-snapshot
marker is removed, so detail fetches target the live site, not the snapshot
the region pages come from. -/
theorem clinic_url_live_site (a : Anchor) (c : Clinic)
    (h : processAnchor a = some c) :
    ∃ slug, '/' ∉ slug ∧ c.url = liveClinicStem ++ (slug ++ ['/']) := by
  by_cases h1 : a.href = [] ∨ anchorText a = [] ∨ (anchorText a).length < 2
  · rw [show processAnchor a = none from by simp [processAnchor, h1]] at h
    exact absurd h (by simp)
  · by_cases h2 : stripEnds (anchorText a) = "Our Clinics".data
    · rw [show processAnchor a = none from by simp [processAnchor, h1, h2]] at h
      exact absurd h (by simp)
    · by_cases h3 : (containsSub "/our-clinics/".data a.href &&
          !containsSub "/regions/".data a.href) = true
      · cases hx : extractClinicSlug a.href with
        | none =>
          rw [show processAnchor a = none from by simp [processAnchor, h1, h2, h3, hx]] at h
          exact absurd h (by simp)
        | some slug =>
          have hpa : processAnchor a = some ⟨anchorText a, clinicUrlFromSlug slug⟩ := by
            simp [processAnchor, h1, h2, h3, hx]
          rw [hpa] at h
          injection h with hc
          have hns := extractClinicSlug_no_slash a.href slug hx
          refine ⟨slug, hns, ?_⟩
          rw [← hc]
          exact clinicUrlFromSlug_live slug hns
      · rw [show processAnchor a = none from by simp [processAnchor, h1, h2, h3]] at h
        exact absurd h (by simp)

/-- C2 witness: the sample anchor's accepted link is the live-site clinic
URL. -/
theorem clinic_url_live_site_witness :
    ∃ slug, '/' ∉ slug ∧
      (Clinic.mk "Noosa Clinic".data
        "https://www.myfootdr.com.au/our-clinics/noosa/".data).url
        = liveClinicStem ++ (slug ++ ['/']) :=
  clinic_url_live_site sampleAnchor _ (by decide)

/-- C4 counterexample: a clinic page that was fetched and parsed (the page
outcome is a parsed document) can still fail to contribute a record: its text
matches the second phone pattern without an accepted first-pattern match, the
extractor raises, and the Detailing phase aborts with no record appended. -/
theorem detail_crash_counterexample :
    detailPhase (fun _ => PageOutcome.page [Node.txt "(07) 5555 1234".data])
        [⟨"Clinic".data, "u".data⟩]
      = Except.error () := by decide

/-- C4 amended: when the Detailing phase completes, the collected records are
exactly those of the clinics whose extraction returned a record — every
fetch-failed or parse-failed clinic yields `None` and is skipped, and a parsed
page never yields `None` (it yields a record, every field possibly empty, or
raises the phone `IndexError`, which would abort the phase instead of dropping
the record). -/
theorem records_iff_parsed_no_crash (oracle : Clinic → PageOutcome)
    (clinics : List Clinic) (res : List Record)
    (h : detailPhase oracle clinics = Except.ok res) :
    res = clinics.filterMap (fun c =>
        match extractClinicDetails (oracle c) c.linkName with
        | Except.ok (some r) => some r
        | _ => none) ∧
    (∀ nm, extractClinicDetails PageOutcome.fetchFail nm = Except.ok none) ∧
    (∀ nm, extractClinicDetails PageOutcome.parseFail nm = Except.ok none) ∧
    ∀ dom nm, extractClinicDetails (PageOutcome.page dom) nm ≠ Except.ok none := by
  refine ⟨?_, fun _ => rfl, fun _ => rfl, ?_⟩
  · induction clinics generalizing res with
    | nil =>
      simp only [detailPhase] at h
      injection h with h1
      rw [← h1]
      rfl
    | cons c rest ih =>
      simp only [detailPhase] at h
      cases hx : extractClinicDetails (oracle c) c.linkName with
      | error e =>
        rw [hx] at h
        have h2 : Except.error e = Except.ok res := h
        exact absurd h2 (by simp)
      | ok o =>
        rw [hx] at h
        cases o with
        | none =>
          have h2 : detailPhase oracle rest = Except.ok res := h
          have hfc : (match extractClinicDetails (oracle c) c.linkName with
              | Except.ok (some r) => some r
              | _ => none) = (none : Option Record) := by
            rw [hx]
          simp only [List.filterMap_cons, hfc]
          exact ih res h2
        | some r =>
          have h2 : Except.map (fun rs => r :: rs) (detailPhase oracle rest)
              = Except.ok res := h
          cases hrest : detailPhase oracle rest with
          | error e =>
            rw [hrest] at h2
            exact absurd h2 (by simp [Except.map])
          | ok rs =>
            rw [hrest] at h2
            simp only [Except.map] at h2
            injection h2 with h1
            rw [← h1]
            have hfc : (match extractClinicDetails (oracle c) c.linkName with
                | Except.ok (some r2) => some r2
                | _ => none) = some r := by
              rw [hx]
            simp only [List.filterMap_cons, hfc]
            exact congrArg (List.cons r) (ih rs hrest)
  · intro dom nm hcon
    cases hp : phoneField (listText dom) with
    | error e =>
      cases e
      rw [extract_page_err dom nm hp] at hcon
      exact absurd hcon (by simp)
    | ok ph =>
      rw [extract_page_ok dom nm ph hp] at hcon
      exact absurd hcon (by simp)

/-- C4 witness: a fetch-failed clinic is skipped, not recorded. -/
theorem records_iff_parsed_no_crash_witness :
    extractClinicDetails PageOutcome.fetchFail "Sample".data = Except.ok none :=
  (records_iff_parsed_no_crash (fun _ => PageOutcome.fetchFail) [] [] rfl).2.1 "Sample".data

/-- A level-2/level-3 heading carrying the marker text is hit. -/
theorem svcHeading_hit_of (tag : List Char) (h : tag = "h2".data ∨ tag = "h3".data) :
    svcHeadingHit (Node.elem tag [Node.txt "Services Available".data]) = true := by
  rcases h with h | h <;> subst h <;> decide

/-- The heading search returns the following siblings of a hit head. -/
theorem svcFind_cons_hit (n : Node) (rest : List Node) (h : svcHeadingHit n = true) :
    svcFind (n :: rest) = some rest := by
  simp [svcFind, h]

theorem svcScan_eq (dom sibs : List Node) (h : svcFind dom = some sibs) :
    svcScan dom = svcCollect sibs := by
  simp [svcScan, h]

/-- The sibling walk stops at an `h2`. -/
theorem svcCollect_stop_h2 (ch l : List Node) :
    svcCollect (Node.elem "h2".data ch :: l) = [] := by
  simp [svcCollect]

/-- The Podiatry service card contributes its `h3` text. -/
theorem svcCollect_podiatry (l : List Node) :
    svcCollect (artPodiatry :: l) = "Podiatry".data :: svcCollect l := by
  have hf : findAnyTagIn ["h3".data] [Node.elem "h3".data [Node.txt "Podiatry".data]]
      = some (Node.elem "h3".data [Node.txt "Podiatry".data]) := rfl
  have ht : mdSub (nodeTextStrip (Node.elem "h3".data [Node.txt "Podiatry".data]))
      = "Podiatry".data := rfl
  simp [svcCollect, artPodiatry, hf, ht]

/-- The Orthotics service card contributes its `h3` text. -/
theorem svcCollect_orthotics (l : List Node) :
    svcCollect (artOrthotics :: l) = "Orthotics".data :: svcCollect l := by
  have hf : findAnyTagIn ["h3".data] [Node.elem "h3".data [Node.txt "Orthotics".data]]
      = some (Node.elem "h3".data [Node.txt "Orthotics".data]) := rfl
  have ht : mdSub (nodeTextStrip (Node.elem "h3".data [Node.txt "Orthotics".data]))
      = "Orthotics".data := rfl
  simp [svcCollect, artOrthotics, hf, ht]

/-- C7: a `Services Available` heading of level 2 or 3 followed by the
Podiatry and Orthotics service cards yields the Services value
`Podiatry, Orthotics`, both when the siblings end there and when a next
section's `h2` follows (the walk stops there, whatever comes after); and the
full extractor on such a page returns a record whose Services field is
exactly that. -/
theorem services_section_collected :
    (∀ (tag : List Char) (rest : List Node),
        tag = "h2".data ∨ tag = "h3".data →
        (rest = [] ∨ ∃ ch rest2, rest = Node.elem "h2".data ch :: rest2) →
        servicesField
            (Node.elem tag [Node.txt "Services Available".data] ::
              artPodiatry :: artOrthotics :: rest)
          = "Podiatry, Orthotics".data) ∧
    extractClinicDetails (.page svcSampleDom) "Sample Clinic".data
      = Except.ok (some ⟨"Sample Clinic".data, [], [], [], "Podiatry, Orthotics".data⟩) := by
  constructor
  · intro tag rest htag hrest
    rcases hrest with h | ⟨ch, rest2, h⟩ <;> subst h
    · rcases htag with h | h <;> subst h <;> decide
    · simp only [servicesField]
      rw [svcScan_eq _ _ (svcFind_cons_hit _ _ (svcHeading_hit_of tag htag)),
        svcCollect_podiatry, svcCollect_orthotics, svcCollect_stop_h2]
      decide
  · decide

/-- C7 witness: the walk ending with the sibling list. -/
theorem services_section_collected_witness :
    servicesField
        (Node.elem "h2".data [Node.txt "Services Available".data] ::
          artPodiatry :: artOrthotics :: [])
      = "Podiatry, Orthotics".data :=
  services_section_collected.1 "h2".data [] (Or.inl rfl) (Or.inl rfl)

/-- The dedup loop only drops elements: its output is a sublist of its
input. -/
theorem dedupGo_sublist (l : List Clinic) : ∀ seen, (dedupGo seen l).Sublist l := by
  induction l with
  | nil => intro seen; simp [dedupGo]
  | cons c rest ih =>
    intro seen
    simp only [dedupGo]
    split
    · exact (ih seen).cons c
    · exact (ih _).cons₂ c

/-- Nothing in the dedup output carries a URL already seen. -/
theorem dedupGo_not_seen (l : List Clinic) :
    ∀ seen c, c ∈ dedupGo seen l → c.url ∉ seen := by
  induction l with
  | nil => intro seen c hc; simp [dedupGo] at hc
  | cons d rest ih =>
    intro seen c hc
    simp only [dedupGo] at hc
    by_cases h : d.url ∈ seen
    · rw [if_pos h] at hc
      exact ih seen c hc
    · rw [if_neg h] at hc
      rcases List.mem_cons.1 hc with rfl | hc2
      · exact h
      · intro hcs
        exact ih _ c hc2 (List.mem_cons_of_mem _ hcs)

/-- The dedup output has pairwise distinct URLs. -/
theorem dedupGo_pairwise (l : List Clinic) :
    ∀ seen, (dedupGo seen l).Pairwise (fun a b => a.url ≠ b.url) := by
  induction l with
  | nil => intro seen; simp [dedupGo]
  | cons d rest ih =>
    intro seen
    simp only [dedupGo]
    split
    · exact ih seen
    · refine List.Pairwise.cons ?_ (ih _)
      intro b hb he
      apply dedupGo_not_seen rest _ b hb
      rw [← he]
      exact List.mem_cons_self _ _

/-- Every URL of the input is either already seen or represented in the dedup
output. -/
theorem dedupGo_covers (l : List Clinic) :
    ∀ seen c, c ∈ l → c.url ∈ seen ∨ ∃ d, d ∈ dedupGo seen l ∧ d.url = c.url := by
  induction l with
  | nil => intro seen c hc; simp at hc
  | cons e rest ih =>
    intro seen c hc
    rcases List.mem_cons.1 hc with rfl | hc2
    · by_cases h : c.url ∈ seen
      · exact Or.inl h
      · refine Or.inr ⟨c, ?_, rfl⟩
        simp only [dedupGo]
        rw [if_neg h]
        exact List.mem_cons_self _ _
    · by_cases h : e.url ∈ seen
      · rcases ih seen c hc2 with h2 | ⟨d, hd, hdu⟩
        · exact Or.inl h2
        · refine Or.inr ⟨d, ?_, hdu⟩
          simp only [dedupGo]
          rw [if_pos h]
          exact hd
      · rcases ih (e.url :: seen) c hc2 with h2 | ⟨d, hd, hdu⟩
        · rcases List.mem_cons.1 h2 with he | hs
          · refine Or.inr ⟨e, ?_, he.symm⟩
            simp only [dedupGo]
            rw [if_neg h]
            exact List.mem_cons_self _ _
          · exact Or.inl hs
        · refine Or.inr ⟨d, ?_, hdu⟩
          simp only [dedupGo]
          rw [if_neg h]
          exact List.mem_cons_of_mem _ hd

/-- Every kept clinic is the first input entry carrying its URL. -/
theorem dedupGo_first (l : List Clinic) :
    ∀ seen c, c ∈ dedupGo seen l → l.find? (fun x => x.url == c.url) = some c := by
  induction l with
  | nil => intro seen c hc; simp [dedupGo] at hc
  | cons e rest ih =>
    intro seen c hc
    simp only [dedupGo] at hc
    by_cases h : e.url ∈ seen
    · rw [if_pos h] at hc
      have hcu := dedupGo_not_seen rest seen c hc
      have hne : (e.url == c.url) = false := by
        rw [beq_eq_false_iff_ne]
        intro he
        exact hcu (he ▸ h)
      rw [List.find?_cons_of_neg _ (by simp [hne])]
      exact ih seen c hc
    · rw [if_neg h] at hc
      rcases List.mem_cons.1 hc with rfl | hc2
      · rw [List.find?_cons_of_pos _ (by simp)]
      · have hcu := dedupGo_not_seen rest _ c hc2
        have hne : (e.url == c.url) = false := by
          rw [beq_eq_false_iff_ne]
          intro he
          exact hcu (he ▸ List.mem_cons_self _ _)
        rw [List.find?_cons_of_neg _ (by simp [hne])]
        exact ih _ c hc2

/-- C6: the per-region clinic list is the anchor yield deduplicated by URL —
pairwise distinct URLs, a sublist of the collected links (so first-seen
relative order is preserved), every kept link is the first collected link
with its URL, and every collected URL is represented. -/
theorem region_dedup_first_seen_order (anchors : List Anchor) :
    extractClinicsFromRegion anchors = dedupClinics (anchors.filterMap processAnchor) ∧
    List.Pairwise (fun a b => a.url ≠ b.url) (extractClinicsFromRegion anchors) ∧
    (extractClinicsFromRegion anchors).Sublist (anchors.filterMap processAnchor) ∧
    (∀ c, c ∈ extractClinicsFromRegion anchors →
        (anchors.filterMap processAnchor).find? (fun x => x.url == c.url) = some c) ∧
    ∀ c, c ∈ anchors.filterMap processAnchor →
        ∃ d, d ∈ extractClinicsFromRegion anchors ∧ d.url = c.url := by
  refine ⟨rfl, dedupGo_pairwise _ [], dedupGo_sublist _ [], ?_, ?_⟩
  · intro c hc
    exact dedupGo_first _ [] c hc
  · intro c hc
    rcases dedupGo_covers _ [] c hc with h | h
    · simp at h
    · exact h

/-- C6 witness: the sample anchor's clinic link is represented in the deduped
region list. -/
theorem region_dedup_first_seen_order_witness :
    ∃ d, d ∈ extractClinicsFromRegion [sampleAnchor] ∧
      d.url = (Clinic.mk "Noosa Clinic".data
        "https://www.myfootdr.com.au/our-clinics/noosa/".data).url :=
  (region_dedup_first_seen_order [sampleAnchor]).2.2.2.2 _ (by decide)

/-- An unquoted (quote-free, delimiter-free) field parses back to itself, up
to the delimiter. -/
theorem parseUnquoted_clean (f : List Char) (hf : needsQuote f = false) (d : Char)
    (r : List Char) (hd : d = ',' ∨ d = '\r' ∨ d = '\n') :
    parseUnquoted (f ++ d :: r) = (f, d :: r) := by
  induction f with
  | nil =>
    simp only [List.nil_append, parseUnquoted]
    rcases hd with h | h | h <;> subst h <;> simp
  | cons c cs ih =>
    simp only [needsQuote, List.any_cons, Bool.or_eq_false_iff] at hf
    obtain ⟨hc, hcs⟩ := hf
    have hcond : (c = ',' || c = '\r' || c = '\n') = false := by
      simp only [Bool.or_eq_false_iff, decide_eq_false_iff_not] at hc ⊢
      exact ⟨⟨hc.1.1.1, hc.1.2⟩, hc.2⟩
    have hcs2 : needsQuote cs = false := by
      simp [needsQuote, hcs]
    rw [show (c :: cs) ++ d :: r = c :: (cs ++ d :: r) from rfl]
    simp only [parseUnquoted, hcond, Bool.false_eq_true, if_false]
    rw [ih hcs2]

/-- The quote-escaped body of a field parses back to the field, consuming the
closing quote. -/
theorem parseQuoted_esc (f : List Char) :
    ∀ (d : Char) (r : List Char), d ≠ '"' →
      parseQuoted (escQuotes f ++ '"' :: d :: r) = (f, d :: r) := by
  induction f with
  | nil =>
    intro d r hd
    show parseQuotedQ (d :: r) = ([], d :: r)
    simp only [parseQuotedQ]
    rw [if_neg hd]
  | cons c cs ih =>
    intro d r hd
    by_cases hc : c = '"'
    · subst hc
      show ('"' :: (parseQuoted (escQuotes cs ++ '"' :: d :: r)).1,
        (parseQuoted (escQuotes cs ++ '"' :: d :: r)).2) = ('"' :: cs, d :: r)
      rw [ih d r hd]
    · rw [show escQuotes (c :: cs) = c :: escQuotes cs from by simp [escQuotes, hc]]
      show parseQuoted (c :: (escQuotes cs ++ '"' :: d :: r)) = (c :: cs, d :: r)
      simp only [parseQuoted]
      rw [if_neg hc, ih d r hd]

/-- A rendered field parses back to the original field value, leaving the
delimiter in place. -/
theorem parseField_render (f : List Char) (d : Char) (r : List Char)
    (hd : d = ',' ∨ d = '\r' ∨ d = '\n') :
    parseField (renderField f ++ d :: r) = (f, d :: r) := by
  have hdq : d ≠ '"' := by rcases hd with h | h | h <;> subst h <;> decide
  unfold renderField
  by_cases hq : needsQuote f = true
  · rw [if_pos hq]
    rw [show ('"' :: (escQuotes f ++ ['"'])) ++ d :: r
        = '"' :: (escQuotes f ++ '"' :: d :: r) from by simp]
    show parseQuoted (escQuotes f ++ '"' :: d :: r) = (f, d :: r)
    exact parseQuoted_esc f d r hdq
  · rw [if_neg hq]
    have hnq : needsQuote f = false := by
      rw [Bool.eq_false_iff]
      exact hq
    cases f with
    | nil =>
      show parseField (d :: r) = ([], d :: r)
      rw [show parseField (d :: r) = parseUnquoted (d :: r) from by
        simp only [parseField]
        rw [if_neg hdq]]
      rcases hd with h | h | h <;> subst h <;> simp [parseUnquoted]
    | cons c cs =>
      have hc : ¬ c = '"' := by
        intro hcc
        subst hcc
        simp [needsQuote] at hnq
      rw [show (c :: cs) ++ d :: r = c :: (cs ++ d :: r) from rfl]
      rw [show parseField (c :: (cs ++ d :: r)) = parseUnquoted (c :: (cs ++ d :: r)) from by
        simp only [parseField]
        rw [if_neg hc]]
      rw [show c :: (cs ++ d :: r) = (c :: cs) ++ d :: r from rfl]
      exact parseUnquoted_clean (c :: cs) hnq d r hd

/-- Parsing one rendered row consumes exactly one fuel unit per field and
returns the row's fields, continuing with the rest of the input. -/
theorem parseRowsGo_row (fs : List (List Char)) :
    ∀ (acc : List (List Char)) (rest : List Char) (fuel : Nat), fs ≠ [] →
      parseRowsGo (fuel + fs.length) acc (renderRow fs ++ rest)
        = (acc ++ fs) :: parseRowsGo fuel [] rest := by
  induction fs with
  | nil =>
    intro acc rest fuel hne
    exact absurd rfl hne
  | cons f fs ih =>
    intro acc rest fuel _
    cases fs with
    | nil =>
      rw [show renderRow [f] ++ rest = renderField f ++ '\r' :: '\n' :: rest from by
        simp [renderRow]]
      cases hI : renderField f ++ '\r' :: '\n' :: rest with
      | nil => exact absurd hI (by simp)
      | cons c rest2 =>
        show parseRowsGo (fuel + 1) acc (c :: rest2) = _
        simp only [parseRowsGo]
        rw [← hI, parseField_render f '\r' ('\n' :: rest) (by simp)]
        show (acc ++ [f]) :: parseRowsGo fuel [] (chompLF '\r' ('\n' :: rest)) = _
        rfl
    | cons g gs =>
      rw [show renderRow (f :: g :: gs) ++ rest
          = renderField f ++ ',' :: (renderRow (g :: gs) ++ rest) from by
        simp [renderRow]]
      cases hI : renderField f ++ ',' :: (renderRow (g :: gs) ++ rest) with
      | nil => exact absurd hI (by simp)
      | cons c rest2 =>
        show parseRowsGo ((fuel + (g :: gs).length) + 1) acc (c :: rest2) = _
        simp only [parseRowsGo]
        rw [← hI, parseField_render f ',' (renderRow (g :: gs) ++ rest) (by simp)]
        show parseRowsGo (fuel + (g :: gs).length) (acc ++ [f])
            (renderRow (g :: gs) ++ rest) = _
        rw [ih (acc ++ [f]) rest fuel (by simp)]
        simp

/-- Every rendered row is longer than its field count. -/
theorem renderRow_length (fs : List (List Char)) :
    fs.length + 1 ≤ (renderRow fs).length := by
  induction fs with
  | nil => simp [renderRow]
  | cons f fs ih =>
    cases fs with
    | nil =>
      simp [renderRow]
    | cons g gs =>
      simp only [renderRow, List.length_append, List.length_cons] at ih ⊢
      omega

/-- The field count of the rows is bounded by the file length. -/
theorem totalFields_le_flatten (rows : List (List (List Char))) :
    totalFields rows ≤ ((rows.map renderRow).flatten).length := by
  induction rows with
  | nil => simp [totalFields]
  | cons row rows ih =>
    simp only [totalFields, List.map_cons, List.sum_cons, List.flatten_cons,
      List.length_append] at ih ⊢
    have := renderRow_length row
    omega

/-- Concatenated rendered rows parse back to the rows, given enough fuel. -/
theorem parseRowsGo_rows (rows : List (List (List Char))) :
    ∀ fuel, (∀ row ∈ rows, row ≠ []) →
      parseRowsGo (fuel + totalFields rows) [] ((rows.map renderRow).flatten) = rows := by
  induction rows with
  | nil =>
    intro fuel _
    show parseRowsGo (fuel + 0) [] [] = []
    cases fuel <;> rfl
  | cons row rows ih =>
    intro fuel h
    have harith : fuel + totalFields (row :: rows)
        = (fuel + totalFields rows) + row.length := by
      simp only [totalFields, List.map_cons, List.sum_cons]
      omega
    rw [harith]
    rw [show ((row :: rows).map renderRow).flatten
        = renderRow row ++ (rows.map renderRow).flatten from by simp]
    rw [parseRowsGo_row row [] ((rows.map renderRow).flatten)
      (fuel + totalFields rows) (h row (by simp))]
    rw [List.nil_append]
    exact congrArg (List.cons row) (ih fuel (fun r hr => h r (by simp [hr])))

/-- C10: writing any list of records to the delimited output (header row plus
one quoted-as-needed row per record) and re-reading it yields exactly the
header fields and the records' five field values, in order. -/
theorem csv_round_trip (records : List Record) :
    parseRows (csvContent records) = headerFields :: records.map recFields := by
  have hrows : ∀ row ∈ (headerFields :: records.map recFields), row ≠ [] := by
    intro row hr
    rcases List.mem_cons.1 hr with rfl | hr2
    · simp [headerFields]
    · obtain ⟨r, _, rfl⟩ := List.mem_map.1 hr2
      simp [recFields]
  have hflat : csvContent records
      = (((headerFields :: records.map recFields).map renderRow)).flatten := by
    simp [csvContent]
  rw [hflat]
  unfold parseRows
  have hbound := totalFields_le_flatten (headerFields :: records.map recFields)
  have hfuel : (((headerFields :: records.map recFields).map renderRow)).flatten.length + 1
      = ((((headerFields :: records.map recFields).map renderRow)).flatten.length + 1
          - totalFields (headerFields :: records.map recFields))
        + totalFields (headerFields :: records.map recFields) := by
    omega
  rw [hfuel]
  exact parseRowsGo_rows (headerFields :: records.map recFields) _ hrows

/-- C5 witness: a page with no extractable address, named exactly as the
override key, comes out with the override address. -/
theorem address_override_replaces_witness :
    (⟨"Allsports Podiatry Noosa".data,
      "Unit 4, 17 Sunshine Beach Rd\nNoosa QLD 4567".data, [], [], []⟩ : Record).address
      = "Unit 4, 17 Sunshine Beach Rd\nNoosa QLD 4567".data :=
  (address_override_replaces [Node.txt "welcome".data] "Allsports Podiatry Noosa".data
    _ (by decide)).1 rfl

example : addressField "123 Main St Noosa QLD 4567".data = "123 Main St Noosa QLD 4567".data := by
  decide

example : addressField "123 Main St Noosa QLD 4567 SA 1111".data
    = "123 Main St Noosa QLD 4567 SA 1111".data := by
  decide

example : phoneField "(07) 5555 1234".data = Except.error () := by decide

example : phoneField "Call (07) 5555 1234".data = Except.ok "(07) 5555 1234".data := by decide

example : phoneField "no numbers here".data = Except.ok [] := by decide

example : phoneField "Call x 0412345678".data = Except.error () := by decide

example : phoneField "Call   x 0412345678".data = Except.error () := by decide

example : phoneField "Call 0412 345 678".data = Except.ok "0412 345 678".data := by decide

example : emailField "write x.y@clinic.com.au now".data = "x.y@clinic.com.au".data := by decide

end ClinicScraper
